import Mathlib

/-
Verification of the claude-codepro installer merge-and-reconcile logic.

The development shallowly embeds the Python sources:
  scripts/lib/files.py, scripts/lib/downloads.py, scripts/install.py,
  installer/steps/config_files.py, installer/steps/environment.py.

JSON and YAML documents are modelled by the inductive `JVal`; Python dicts
are association lists with first-match lookup (real Python dicts never hold
duplicate keys, and every operation below preserves that discipline).
Python exceptions are modelled by `Option`: a `none` result means the
corresponding Python code raises at that point.
-/

namespace CodePro

/-- A JSON (or YAML) value as produced by json.load / yaml.safe_load. -/
inductive JVal where
  | null
  | bool (b : Bool)
  | num (n : Int)
  | str (s : String)
  | arr (elems : List JVal)
  | obj (fields : List (String × JVal))

/-- A Python dict with string keys, as an association list. -/
abbrev JObj := List (String × JVal)

/-- First-match association-list lookup: Python `d[k]` / `k in d` on dicts. -/
def lookupKey (k : String) : JObj → Option JVal
  | [] => none
  | (k', v) :: rest => if k' = k then some v else lookupKey k rest

/-- Python dict item assignment `d[k] = v`: replace in place, else append. -/
def setKey (k : String) (v : JVal) : JObj → JObj
  | [] => [(k, v)]
  | (k', v') :: rest => if k' = k then (k, v) :: rest else (k', v') :: setKey k v rest

/-- Python `{**a, **b}`: keys of `a` in order (values overridden by `b`
when present there), then the keys of `b` that are absent from `a`. -/
def dictUnion (a b : JObj) : JObj :=
  a.map (fun p => (p.1, (lookupKey p.1 b).getD p.2)) ++
    b.filter (fun p => (lookupKey p.1 a).isNone)

/-- Bool test that a character list is an infix of another, via `isPrefixOf`
at every suffix.  Models the Python substring test `pat in s`. -/
def listInfixOf (pat : List Char) : List Char → Bool
  | [] => pat.isEmpty
  | c :: rest => pat.isPrefixOf (c :: rest) || listInfixOf pat rest

/-- Python `pat in s` for strings (substring containment). -/
def pyInStr (pat s : String) : Bool := listInfixOf pat.data s.data

/-- Python `v == k` for a string `k` against an arbitrary JSON value. -/
def eqStr (k : String) : JVal → Bool
  | .str s => s == k
  | _ => false

/-- Python `k in v`.  Key membership for dicts, element membership for
lists, substring test for strings; `none` models the TypeError raised for
the remaining types. -/
def pyContains (k : String) : JVal → Option Bool
  | .obj o => some (lookupKey k o).isSome
  | .arr l => some (l.any (eqStr k))
  | .str s => some (pyInStr k s)
  | _ => none

/-- Python `v[k]` for a string key: `none` models both KeyError (absent
key) and the TypeError raised when `v` is not a dict. -/
def pyGetItem (v : JVal) (k : String) : Option JVal :=
  match v with
  | .obj o => lookupKey k o
  | _ => none

/-- Python `v.get(k, d)`: `none` models the AttributeError raised when `v`
is not a dict. -/
def dictGet (v : JVal) (k : String) (d : JVal) : Option JVal :=
  match v with
  | .obj o => some ((lookupKey k o).getD d)
  | _ => none

/-- Python `v[k] = x`: `none` models the TypeError raised when `v` is not
a dict. -/
def pySetItem (v : JVal) (k : String) (x : JVal) : Option JVal :=
  match v with
  | .obj o => some (.obj (setKey k x o))
  | _ => none

/-- Python `{**x, **y}` on two arbitrary values: raises unless both are
dicts. -/
def starUnion (x y : JVal) : Option JVal :=
  match x, y with
  | .obj a, .obj b => some (.obj (dictUnion a b))
  | _, _ => none

/-- The bytes of a destination or downloaded file, at the granularity the
code observes them: either bytes that fail to parse as JSON, carried
verbatim, or bytes whose JSON parse yields the given value. -/
inductive Content where
  | text (s : String)
  | json (v : JVal)

namespace Files

/-
Embedding of scripts/lib/files.py.
-/

/-- From merge_mcp_config, files.py lines 118-127: detect the server
collection key by checking a priority-ordered list of two names, first in
the existing document and then in the new one.  Outer `none` models a
TypeError raised by one of the `in` tests. -/
def detect_server_key (existing newC : JVal) : Option (Option String) :=
  match pyContains "mcpServers" existing with
  | none => none
  | some true => some (some "mcpServers")
  | some false =>
    match pyContains "servers" existing with
    | none => none
    | some true => some (some "servers")
    | some false =>
      match pyContains "mcpServers" newC with
      | none => none
      | some true => some (some "mcpServers")
      | some false =>
        match pyContains "servers" newC with
        | none => none
        | some true => some (some "servers")
        | some false => some none

/-- From merge_mcp_config, files.py lines 110-143: the merge of the two
parsed documents.  `none` models any exception raised inside the try
block, which the except clause turns into a warning. -/
def merge_parsed_configs (existing newC : JVal) : Option JVal :=
  match detect_server_key existing newC with
  | none => none
  | some none => starUnion newC existing
  | some (some k) =>
    match dictGet existing k (.obj []) with
    | none => none
    | some es =>
      match dictGet newC k (.obj []) with
      | none => none
      | some ns =>
        match starUnion ns es with
        | none => none
        | some ms =>
          match starUnion newC existing with
          | none => none
          | some mc => pySetItem mc k ms

/-- Result of the files.py merge_mcp_config body: the destination file
content after the call, the returned flag, and whether a warning was
printed. -/
structure MergeOutcome where
  dest : Option Content
  success : Bool
  warned : Bool

/-- From files.py merge_mcp_config, lines 104-154, after the new manifest
was downloaded successfully: absent destination is filled with the
downloaded bytes verbatim (shutil.copy2); otherwise both files are parsed
and merged, and any exception in the try block leaves the destination
untouched, warns, and returns False. -/
def merge_mcp_config (newContent : Content) (dest : Option Content) : MergeOutcome :=
  match dest with
  | none => ⟨some newContent, true, false⟩
  | some d =>
    match d, newContent with
    | .text _, _ => ⟨some d, false, true⟩
    | .json _, .text _ => ⟨some d, false, true⟩
    | .json e, .json n =>
      match merge_parsed_configs e n with
      | some m => ⟨some (.json m), true, false⟩
      | none => ⟨some d, false, true⟩

/-- From merge_yaml_config, files.py lines 268-273, body of the loop for
one command of the new config: carry the custom rules of the matching
existing command into the new command definition. -/
def mergeYamlCommand (name : String) (cfg : JVal) (ecv : JVal) : Option (String × JVal) :=
  match pyContains name ecv with
  | none => none
  | some false => some (name, cfg)
  | some true =>
    match pyGetItem ecv name with
    | none => none
    | some ecmd =>
      match dictGet ecmd "rules" (.obj []) with
      | none => none
      | some rules =>
        match dictGet rules "custom" (.arr []) with
        | none => none
        | some old_custom =>
          match pyContains "rules" cfg with
          | none => none
          | some br =>
            match (if br then some cfg else pySetItem cfg "rules" (.obj [])) with
            | none => none
            | some cfg1 =>
              match pyGetItem cfg1 "rules" with
              | none => none
              | some rv =>
                match pySetItem rv "custom" old_custom with
                | none => none
                | some rv' => pySetItem cfg1 "rules" rv' |>.map (fun cfg2 => (name, cfg2))

/-- The loop of files.py lines 268-273 over all commands of the new
config. -/
def mergeCommands (ecv : JVal) : List (String × JVal) → Option (List (String × JVal))
  | [] => some []
  | (name, cfg) :: rest =>
    match mergeYamlCommand name cfg ecv with
    | none => none
    | some p =>
      match mergeCommands ecv rest with
      | none => none
      | some r => some (p :: r)

/-- From merge_yaml_config, files.py lines 258-277: the merge of the two
parsed YAML documents.  The new structure is kept, with the custom rules
sequence of every command also present in the existing config carried
forward.  `none` models an exception inside the try block (the function
then returns False and the existing file stays untouched, since the write
only happens after the loop). -/
def merge_yaml_parsed (new_config existing : JVal) : Option JVal :=
  match pyContains "commands" new_config with
  | none => none
  | some false => some new_config
  | some true =>
    match pyContains "commands" existing with
    | none => none
    | some false => some new_config
    | some true =>
      match pyGetItem new_config "commands" with
      | none => none
      | some ncv =>
        match ncv with
        | .obj ncmds =>
          match pyGetItem existing "commands" with
          | none => none
          | some ecv =>
            match mergeCommands ecv ncmds with
            | none => none
            | some ncmds' => pySetItem new_config "commands" (.obj ncmds')
        | _ => none

end Files

namespace ConfigFiles

/-
Embedding of installer/steps/config_files.py.
-/

/-- The Python-specific permission entries, config_files.py lines 16-29. -/
def PYTHON_PERMISSIONS : List String :=
  ["Bash(basedpyright:*)",
   "Bash(mypy:*)",
   "Bash(python tests:*)",
   "Bash(python:*)",
   "Bash(pyright:*)",
   "Bash(pytest:*)",
   "Bash(ruff check:*)",
   "Bash(ruff format:*)",
   "Bash(uv add:*)",
   "Bash(uv pip show:*)",
   "Bash(uv pip:*)",
   "Bash(uv run:*)"]

/-- The loop body of config_files.py lines 45-47: add one downloaded
server to the existing manifest unless the name is already present.
The dict currently under the mcpServers key is looked up, tested for the
name, and extended. -/
def addServers (servers : List (String × JVal)) (existing : JVal) : Option JVal :=
  match servers with
  | [] => some existing
  | (name, cfg) :: rest =>
    match pyGetItem existing "mcpServers" with
    | none => none
    | some cur =>
      match pyContains name cur with
      | none => none
      | some true => addServers rest existing
      | some false =>
        match pySetItem cur name cfg with
        | none => none
        | some cur' =>
          match pySetItem existing "mcpServers" cur' with
          | none => none
          | some existing' => addServers rest existing'

/-- The block of config_files.py lines 42-43: force an mcpServers key
onto the parsed existing value when absent. -/
def ensureServersKey (existing : JVal) : Option JVal :=
  match pyContains "mcpServers" existing with
  | none => none
  | some true => some existing
  | some false => pySetItem existing "mcpServers" (.obj [])

/-- From merge_mcp_config, config_files.py lines 32-49: read the existing
file (absent or unparsable bytes give an empty dict), force an mcpServers
key when absent, add the unseen downloaded servers, and return the bytes
written back.  `none` models an exception escaping the call, in which case
the destination is not written. -/
def merge_mcp_config (dest : Option Content) (new_config : JVal) : Option Content :=
  let existing : JVal :=
    match dest with
    | none => .obj []
    | some (.text _) => .obj []
    | some (.json v) => v
  match ensureServersKey existing with
  | none => none
  | some existing1 =>
    match dictGet new_config "mcpServers" (.obj []) with
    | none => none
    | some nsv =>
      match nsv with
      | .obj nsl =>
        match addServers nsl existing1 with
        | none => none
        | some final => some (.json final)
      | _ => none

/-- The observable effect of one call to the step merge: the destination
file content afterwards, and whether an exception escaped the call. -/
def merge_mcp_config_call (dest : Option Content) (new_config : JVal) :
    (Option Content) × Bool :=
  match merge_mcp_config dest new_config with
  | some c => (some c, false)
  | none => (dest, true)

/-- Python `h.get("command", "")` of config_files.py line 58. -/
def pyHookCommand (h : JVal) : Option JVal := dictGet h "command" (.str "")

/-- Keep decision for one hook entry, config_files.py line 58: kept when
the command string does not contain the substring file_checker_python.py. -/
def keepHook (h : JVal) : Option Bool :=
  match pyHookCommand h with
  | none => none
  | some cmd =>
    match pyContains "file_checker_python.py" cmd with
    | none => none
    | some b => some (!b)

/-- The hook list comprehension of config_files.py lines 57-59. -/
def filterHooks : List JVal → Option (List JVal)
  | [] => some []
  | h :: rest =>
    match keepHook h with
    | none => none
    | some b =>
      match filterHooks rest with
      | none => none
      | some r => some (if b then h :: r else r)

/-- One iteration of the loop over hooks.PostToolUse, config_files.py
lines 55-59.  A group without a hooks key is left unchanged; a list-valued
hooks entry is filtered in place.  Iterating a non-list hooks value is
modelled as an exception. -/
def filterGroup (g : JVal) : Option JVal :=
  match pyContains "hooks" g with
  | none => none
  | some false => some g
  | some true =>
    match pyGetItem g "hooks" with
    | none => none
    | some (.arr hl) =>
      match filterHooks hl with
      | none => none
      | some kept => pySetItem g "hooks" (.arr kept)
    | some _ => none

/-- The loop of config_files.py lines 55-59 over all PostToolUse groups. -/
def filterGroups : List JVal → Option (List JVal)
  | [] => some []
  | g :: rest =>
    match filterGroup g with
    | none => none
    | some g' =>
      match filterGroups rest with
      | none => none
      | some r => some (g' :: r)

/-- The hooks half of remove_python_settings, config_files.py lines 54-59.
The PostToolUse collection is only modelled for list values, the shape the
settings template uses. -/
def removeHooks (v : JVal) : Option JVal :=
  match pyContains "hooks" v with
  | none => none
  | some false => some v
  | some true =>
    match pyGetItem v "hooks" with
    | none => none
    | some hv =>
      match pyContains "PostToolUse" hv with
      | none => none
      | some false => some v
      | some true =>
        match pyGetItem hv "PostToolUse" with
        | none => none
        | some (.arr groups) =>
          match filterGroups groups with
          | none => none
          | some groups' =>
            match pySetItem hv "PostToolUse" (.arr groups') with
            | none => none
            | some hv' => pySetItem v "hooks" hv'
        | some _ => none

/-- Python `p not in PYTHON_PERMISSIONS` of config_files.py line 62:
exact equality against the entries of the list, never raising. -/
def keepPerm (p : JVal) : Bool :=
  match p with
  | .str s => !(PYTHON_PERMISSIONS.contains s)
  | _ => true

/-- The permissions half of remove_python_settings, config_files.py lines
61-62.  The allow collection is only modelled for list values. -/
def removePerms (v : JVal) : Option JVal :=
  match pyContains "permissions" v with
  | none => none
  | some false => some v
  | some true =>
    match pyGetItem v "permissions" with
    | none => none
    | some pv =>
      match pyContains "allow" pv with
      | none => none
      | some false => some v
      | some true =>
        match pyGetItem pv "allow" with
        | none => none
        | some (.arr ps) =>
          match pySetItem pv "allow" (.arr (ps.filter keepPerm)) with
          | none => none
          | some pv' => pySetItem v "permissions" pv'
        | some _ => none

/-- From config_files.py lines 52-62: remove Python-specific hooks and
permissions from the parsed settings. -/
def remove_python_settings (v : JVal) : Option JVal :=
  match removeHooks v with
  | none => none
  | some v1 => removePerms v1

/-- From ConfigFilesStep.run, config_files.py lines 82-104: the settings
generation of the step-based installer.  The template argument is the
JSON parse of the expanded template content (`none` when that parse
fails, the only caught exception).  When the template file exists and
parses, the settings file is written unconditionally; an exception from
remove_python_settings escapes the step and nothing is written. -/
def generate_settings_step (template_exists : Bool) (template_parsed : Option JVal)
    (install_python : Bool) (existing : Option Content) : Option Content :=
  if template_exists then
    match template_parsed with
    | none => existing
    | some s =>
      if install_python then some (.json s)
      else
        match remove_python_settings s with
        | none => existing
        | some s' => some (.json s')
  else existing

end ConfigFiles

namespace InstallScript

/-
Embedding of scripts/install.py, lines 253-283: generation of
settings.local.json from the template by the legacy install script.
-/

/-- Python whitespace test of str.strip. -/
def isWs (c : Char) : Bool :=
  c = ' ' || c = '\t' || c = '\n' || c = '\r' || c = '\x0b' || c = '\x0c'

/-- Python str.strip(): drop whitespace from both ends. -/
def pyStrip (l : List Char) : List Char :=
  ((l.dropWhile isWs).reverse.dropWhile isWs).reverse

/-- Python `regen.lower() in ["y", "yes"]` after `regen = input().strip()`,
install.py lines 258-259. -/
def isYesAnswer (ans : String) : Bool :=
  let t := (pyStrip ans.data).map Char.toLower
  t == "y".data || t == "yes".data

/-- Python `overwrite.upper() in ["Y", "YES"]`, install.py line 269. -/
def isYesEnv (s : String) : Bool :=
  let u := s.data.map Char.toUpper
  u == "Y".data || u == "YES".data

/-- The template placeholder token replaced by the project directory. -/
def PROJECT_DIR_TOKEN : String := "\x7b\x7bPROJECT_DIR\x7d\x7d"

/-- Python `template_content.replace("{{PROJECT_DIR}}", str(project_dir))`. -/
def expand (template project_dir : String) : String :=
  template.replace PROJECT_DIR_TOKEN project_dir

/-- From install.py lines 253-283: the settings.local.json regeneration
policy of the legacy script.  Inputs are the template file content (none
when absent), the existing settings file content (none when absent), the
non-interactive flag, the answer typed at the prompt, the value of the
OVERWRITE_SETTINGS environment variable (none when unset), and the
project directory.  The output is the settings file content afterwards. -/
def generate_settings (template existing : Option String) (non_interactive : Bool)
    (regen_answer : String) (overwrite_env : Option String) (project_dir : String) :
    Option String :=
  match template with
  | none => existing
  | some t =>
    match existing with
    | some s =>
      if !non_interactive then
        if isYesAnswer regen_answer then some (expand t project_dir) else some s
      else
        if isYesEnv (overwrite_env.getD "N") then some (expand t project_dir) else some s
    | none => some (expand t project_dir)

end InstallScript

namespace Env

/-
Embedding of installer/steps/environment.py.  File contents are byte
sequences modelled as character lists; an absent file is `none`.
-/

/-- Python `content.split("\n")`, structurally on the character list. -/
def splitOnNl : List Char → List (List Char)
  | [] => [[]]
  | c :: rest =>
    let r := splitOnNl rest
    if c = '\n' then [] :: r
    else (c :: r.headD []) :: r.tail

/-- Python line.strip(): drop whitespace from both ends. -/
def trimBoth (l : List Char) : List Char :=
  ((l.dropWhile InstallScript.isWs).reverse.dropWhile InstallScript.isWs).reverse

/-- The per-line test of environment.py line 22:
`line.strip().startswith(f"{key}=")`. -/
def keyLine (key : String) (line : List Char) : Bool :=
  (key.data ++ ['=']).isPrefixOf (trimBoth line)

/-- From environment.py lines 15-24: a key exists in the file when some
line, after stripping, starts with `key=` - the value is not inspected. -/
def key_exists_in_file (key : String) (env_file : Option (List Char)) : Bool :=
  match env_file with
  | none => false
  | some content => (splitOnNl content).any (keyLine key)

/-- From environment.py lines 27-31: a key is set when the process
environment variable of that name is truthy (present and non-empty), or
the key exists in the file. -/
def key_is_set (key : String) (env : String → Option String)
    (env_file : Option (List Char)) : Bool :=
  (match env key with
   | some v => v ≠ ""
   | none => false) ||
  key_exists_in_file key env_file

/-- From environment.py lines 34-40: append `key=value` to the file
(creating it when absent) unless the key already exists there. -/
def add_env_key (key value : String) (env_file : Option (List Char)) :
    Option (List Char) :=
  if key_exists_in_file key env_file then env_file
  else some ((env_file.getD []) ++ key.data ++ '=' :: value.data ++ ['\n'])

/-- Modelled from the spec: the exists check as section 4.3 words it, for
comparison with the code - true when the environment variable is
non-empty, or a line for the key carries a value that is non-empty after
trimming whitespace. -/
def spec_key_check (key : String) (env : String → Option String)
    (env_file : Option (List Char)) : Bool :=
  (match env key with
   | some v => v ≠ ""
   | none => false) ||
  (match env_file with
   | none => false
   | some content =>
     (splitOnNl content).any (fun line =>
       let t := trimBoth line
       (key.data ++ ['=']).isPrefixOf t &&
         !(trimBoth (t.drop (key.data.length + 1))).isEmpty))

/-- The answers the console would return for the prompts of
EnvironmentStep.run; present only when the context carries a ui. -/
structure UIAnswers where
  milvus_token : String
  milvus_address : String
  vector_store_username : String
  vector_store_password : String
  openai_api_key : String
  exa_api_key : String
  gemini_api_key : String

/-- From EnvironmentStep.run, environment.py lines 52-163: when skip_env
or non_interactive is set the method returns after a status message and
touches nothing; otherwise each value is prompted for only when its key
is not already set and a ui is present, and the add_env_key cascade runs.
The returned value is the .env file content after the call. -/
def EnvironmentStep_run (skip_env non_interactive : Bool)
    (env : String → Option String) (ui : Option UIAnswers)
    (file : Option (List Char)) : Option (List Char) :=
  if skip_env || non_interactive then file
  else
    let a := ui.getD ⟨"", "", "", "", "", "", ""⟩
    let milvusPrompted := !(key_is_set "MILVUS_TOKEN" env file) && ui.isSome
    let milvus_token := if milvusPrompted then a.milvus_token else ""
    let milvus_address := if milvusPrompted then a.milvus_address else ""
    let vector_store_username := if milvusPrompted then a.vector_store_username else ""
    let vector_store_password := if milvusPrompted then a.vector_store_password else ""
    let openai_api_key :=
      if !(key_is_set "OPENAI_API_KEY" env file) && ui.isSome then a.openai_api_key else ""
    let exa_api_key :=
      if !(key_is_set "EXA_API_KEY" env file) && ui.isSome then a.exa_api_key else ""
    let gemini_api_key :=
      if !(key_is_set "GEMINI_API_KEY" env file) && ui.isSome then a.gemini_api_key else ""
    let f1 := add_env_key "MILVUS_TOKEN" milvus_token file
    let f2 := add_env_key "MILVUS_ADDRESS" milvus_address f1
    let f3 := add_env_key "VECTOR_STORE_URL" milvus_address f2
    let f4 := add_env_key "VECTOR_STORE_USERNAME" vector_store_username f3
    let f5 := add_env_key "VECTOR_STORE_PASSWORD" vector_store_password f4
    let f6 := add_env_key "OPENAI_API_KEY" openai_api_key f5
    let f7 := add_env_key "EXA_API_KEY" exa_api_key f6
    let f8 := add_env_key "GEMINI_API_KEY" gemini_api_key f7
    let f9 := add_env_key "USE_ASK_CIPHER" "true" f8
    let f10 := add_env_key "VECTOR_STORE_TYPE" "milvus" f9
    add_env_key "FASTMCP_LOG_LEVEL" "ERROR" f10

end Env

namespace Downloads

/-
Embedding of scripts/lib/downloads.py, download_file (lines 33-77).
-/

/-- What urllib.request.urlopen produces for the computed file url: a
raised exception (network errors, and the HTTPError urllib raises for
error statuses) or a response with a status and a body. -/
inductive RemoteResult where
  | err
  | resp (status : Nat) (body : String)

/-- The slice of DownloadConfig that download_file consults: the
local_mode flag and the truthiness of local_repo_dir. -/
structure DownloadConfig where
  local_mode : Bool
  has_local_repo_dir : Bool

/-- The external world of one download_file call: the content of
local_repo_dir/repo_path when that path is a file, whether the source
resolves to the destination path itself, and the remote fetch outcome. -/
structure FetchEnv where
  localSource : Option String
  samePath : Bool
  remote : RemoteResult

/-- From downloads.py lines 33-77: returns the success flag and the
destination file content after the call (shutil.copy2 of an existing
readable source is modelled as succeeding; the parent-directory creation
of line 50 does not touch the destination file itself). -/
def download_file (cfg : DownloadConfig) (env : FetchEnv)
    (dest : Option String) : Bool × Option String :=
  if cfg.local_mode && cfg.has_local_repo_dir then
    match env.localSource with
    | some s => if env.samePath then (true, dest) else (true, some s)
    | none => (false, dest)
  else
    match env.remote with
    | .err => (false, dest)
    | .resp status body => if status == 200 then (true, some body) else (false, dest)

/-- The fetch-failure condition named by the spec: a non-200 status or a
network error in remote mode, or an absent source file in local mode. -/
def fetchFails (cfg : DownloadConfig) (env : FetchEnv) : Bool :=
  if cfg.local_mode && cfg.has_local_repo_dir then
    env.localSource.isNone
  else
    match env.remote with
    | .err => true
    | .resp status _ => status != 200

end Downloads

/-
Statement-side definitions used by the theorems below.
-/

/-- The first of two optional values, as Python precedence chains read. -/
def firstSome (a b : Option JVal) : Option JVal :=
  match a with
  | some v => some v
  | none => b

/-- Shape condition on the existing destination under which the step merge
cannot raise: absent, unparsable, or a JSON object whose mcpServers entry,
when present, is itself an object. -/
def ExistingOK (dest : Option Content) : Prop :=
  dest = none ∨ (∃ s, dest = some (.text s)) ∨
  (∃ e, dest = some (.json (.obj e)) ∧
    (lookupKey "mcpServers" e = none ∨ ∃ ms, lookupKey "mcpServers" e = some (.obj ms)))

/-- A file state whose content, when present, is empty or ends in a
newline - the shape every file written by add_env_key itself has. -/
def terminatedFile : Option (List Char) → Prop
  | none => True
  | some c => c = [] ∨ c.getLast? = some '\n'

/-- The custom rules sequence carried out of an existing command
definition: existing.commands[name].rules.custom with empty defaults. -/
def existingCustom (ecmd : JVal) : JVal :=
  match ecmd with
  | .obj eo =>
    match lookupKey "rules" eo with
    | some (.obj ro) => (lookupKey "custom" ro).getD (.arr [])
    | _ => .arr []
  | _ => .arr []

/-- A new command definition with rules.custom replaced by the given
sequence, the rules mapping created when absent. -/
def withCustom (oldCustom : JVal) (cfg : JVal) : JVal :=
  match cfg with
  | .obj co =>
    match lookupKey "rules" co with
    | some (.obj ro) => .obj (setKey "rules" (.obj (setKey "custom" oldCustom ro)) co)
    | none => .obj (setKey "rules" (.obj [("custom", oldCustom)]) co)
    | some _ => cfg
  | _ => cfg

/-- The expected commands mapping after the YAML merge: every new command
that also exists in the existing config gets its custom rules from there,
the others are untouched. -/
def expMergedCommands (ecmds ncmds : JObj) : JObj :=
  ncmds.map (fun p =>
    match lookupKey p.1 ecmds with
    | none => p
    | some ecmd => (p.1, withCustom (existingCustom ecmd) p.2))

/-- Shape of a command definition the YAML merge handles without raising:
an object whose rules entry, when present, is an object. -/
def CmdOK (cfg : JVal) : Prop :=
  ∃ co, cfg = JVal.obj co ∧
    (lookupKey "rules" co = none ∨ ∃ ro, lookupKey "rules" co = some (.obj ro))

/-- The command string of a hook entry, as h.get("command", "") reads it
on the shapes HookOK admits. -/
def strCommand (h : JVal) : String :=
  match h with
  | .obj ho =>
    match lookupKey "command" ho with
    | some (.str s) => s
    | _ => ""
  | _ => ""

/-- The keep test of C7: a hook entry survives when its command does not
contain the file_checker_python.py substring. -/
def keepHookB (h : JVal) : Bool :=
  !(pyInStr "file_checker_python.py" (strCommand h))

/-- The expected transform of one PostToolUse group: its hooks list
filtered, other groups untouched. -/
def expGroup (g : JVal) : JVal :=
  match g with
  | .obj go =>
    match lookupKey "hooks" go with
    | some (.arr hl) => .obj (setKey "hooks" (.arr (hl.filter keepHookB)) go)
    | _ => g
  | _ => g

/-- Shape of a hook entry: an object whose command entry, when present, is
a string. -/
def HookOK (h : JVal) : Prop :=
  ∃ ho, h = JVal.obj ho ∧
    (lookupKey "command" ho = none ∨ ∃ s, lookupKey "command" ho = some (.str s))

/-- Shape of a PostToolUse group: an object whose hooks entry, when
present, is an array of well-shaped hook entries. -/
def GroupOK (g : JVal) : Prop :=
  ∃ go, g = JVal.obj go ∧
    (lookupKey "hooks" go = none ∨
     ∃ hl, lookupKey "hooks" go = some (.arr hl) ∧ ∀ h ∈ hl, HookOK h)

/-
Generic lemmas about the dict model.
-/

@[simp]
theorem firstSome_some (v : JVal) (b : Option JVal) : firstSome (some v) b = some v := rfl

@[simp]
theorem firstSome_none (b : Option JVal) : firstSome none b = b := rfl

@[simp]
theorem lookupKey_nil (k : String) : lookupKey k [] = none := rfl

theorem lookupKey_setKey_self (k : String) (v : JVal) (l : JObj) :
    lookupKey k (setKey k v l) = some v := by
  induction l with
  | nil => simp [setKey, lookupKey]
  | cons p rest ih =>
    obtain ⟨k', v'⟩ := p
    by_cases h : k' = k
    · simp [setKey, h, lookupKey]
    · simp [setKey, h, lookupKey, ih]

theorem lookupKey_setKey_ne (k k2 : String) (v : JVal) (l : JObj) (h : k2 ≠ k) :
    lookupKey k2 (setKey k v l) = lookupKey k2 l := by
  have h' : ¬(k = k2) := fun hh => h hh.symm
  induction l with
  | nil => simp [setKey, lookupKey, h']
  | cons p rest ih =>
    obtain ⟨k', v'⟩ := p
    by_cases hk : k' = k
    · subst hk
      simp [setKey, lookupKey, h']
    · simp [setKey, hk, lookupKey, ih]

theorem setKey_setKey (k : String) (v w : JVal) (l : JObj) :
    setKey k v (setKey k w l) = setKey k v l := by
  induction l with
  | nil => simp [setKey]
  | cons p rest ih =>
    obtain ⟨k', v'⟩ := p
    by_cases h : k' = k
    · simp [setKey, h]
    · simp [setKey, h, ih]

theorem lookupKey_append (l1 l2 : JObj) (k : String) :
    lookupKey k (l1 ++ l2) = firstSome (lookupKey k l1) (lookupKey k l2) := by
  induction l1 with
  | nil => simp [lookupKey]
  | cons p rest ih =>
    obtain ⟨k', v'⟩ := p
    by_cases h : k' = k
    · simp [lookupKey, h, firstSome]
    · simp [lookupKey, h, ih]

theorem lookupKey_map_override (a b : JObj) (k : String) :
    lookupKey k (a.map (fun p => (p.1, (lookupKey p.1 b).getD p.2))) =
      (lookupKey k a).map (fun v => (lookupKey k b).getD v) := by
  induction a with
  | nil => simp [lookupKey]
  | cons p rest ih =>
    obtain ⟨k', v'⟩ := p
    by_cases h : k' = k
    · subst h
      simp [lookupKey]
    · simp [lookupKey, h, ih]

theorem lookupKey_filter_of_none (b a : JObj) (k : String) (h : lookupKey k a = none) :
    lookupKey k (b.filter (fun p => (lookupKey p.1 a).isNone)) = lookupKey k b := by
  induction b with
  | nil => simp
  | cons p rest ih =>
    obtain ⟨k', v'⟩ := p
    by_cases hk : k' = k
    · subst hk
      simp [List.filter_cons, h, lookupKey, ih]
    · by_cases hp : (lookupKey k' a).isNone
      · simp [List.filter_cons, hp, lookupKey, hk, ih]
      · simp [List.filter_cons, hp, lookupKey, hk, ih]

theorem lookupKey_filter_of_some (b a : JObj) (k : String) (v : JVal)
    (h : lookupKey k a = some v) :
    lookupKey k (b.filter (fun p => (lookupKey p.1 a).isNone)) = none := by
  induction b with
  | nil => simp
  | cons p rest ih =>
    obtain ⟨k', v'⟩ := p
    by_cases hk : k' = k
    · subst hk
      simp [List.filter_cons, h, lookupKey, ih]
    · by_cases hp : (lookupKey k' a).isNone
      · simp [List.filter_cons, hp, lookupKey, hk, ih]
      · simp [List.filter_cons, hp, lookupKey, hk, ih]

/-- Lookup in a Python dict union `{**a, **b}`: the value from `b` when
present, else the value from `a`. -/
theorem lookupKey_dictUnion (a b : JObj) (k : String) :
    lookupKey k (dictUnion a b) =
      match lookupKey k a with
      | some v => some ((lookupKey k b).getD v)
      | none => lookupKey k b := by
  unfold dictUnion
  rw [lookupKey_append, lookupKey_map_override]
  cases hA : lookupKey k a with
  | none => simp [lookupKey_filter_of_none b a k hA]
  | some v => simp [lookupKey_filter_of_some b a k v hA]

/-- Behaviour of the server-adding loop of the step merge: the result is
still a dict whose mcpServers entry is a dict, and lookup there prefers
the pre-existing entry. -/
theorem addServers_spec (nsl : List (String × JVal)) (e ms : JObj)
    (h : lookupKey "mcpServers" e = some (.obj ms)) :
    ∃ e' ms', ConfigFiles.addServers nsl (.obj e) = some (.obj e') ∧
      lookupKey "mcpServers" e' = some (.obj ms') ∧
      ∀ name, lookupKey name ms' = firstSome (lookupKey name ms) (lookupKey name nsl) := by
  induction nsl generalizing e ms with
  | nil =>
    refine ⟨e, ms, rfl, h, fun name => ?_⟩
    cases lookupKey name ms <;> simp
  | cons p rest ih =>
    obtain ⟨nm, cfg⟩ := p
    cases hm : lookupKey nm ms with
    | some v =>
      obtain ⟨e', ms', h1, h2, h3⟩ := ih e ms h
      refine ⟨e', ms', ?_, h2, fun name => ?_⟩
      · simp only [ConfigFiles.addServers, pyGetItem, h, pyContains, hm, Option.isSome]
        exact h1
      · rw [h3 name]
        by_cases hname : nm = name
        · subst hname
          simp [hm]
        · simp [lookupKey, hname]
    | none =>
      have hset : lookupKey "mcpServers" (setKey "mcpServers" (.obj (setKey nm cfg ms)) e) =
          some (.obj (setKey nm cfg ms)) := lookupKey_setKey_self _ _ _
      obtain ⟨e', ms', h1, h2, h3⟩ := ih _ _ hset
      refine ⟨e', ms', ?_, h2, fun name => ?_⟩
      · simp only [ConfigFiles.addServers, pyGetItem, h, pyContains, hm, Option.isSome,
          pySetItem]
        exact h1
      · rw [h3 name]
        by_cases hname : nm = name
        · subst hname
          rw [lookupKey_setKey_self]
          simp [hm, lookupKey]
        · rw [lookupKey_setKey_ne _ _ _ _ (fun hh => hname hh.symm)]
          simp [lookupKey, hname]

/-- Claim C1: for JSON-object manifests, the server merge keeps, under the
detected server-collection key, exactly the union of the two server maps,
the existing definition winning on a name collision and names only in the
new manifest being added.  The first conjunct settles the library merge
(scripts/lib/files.py lines 129-142); the final conjunct settles the
step-based merge (installer/steps/config_files.py lines 42-49). -/
theorem C1_server_merge_precedence (e n : JObj) (k : String) (esl nsl : JObj)
    (hdet : Files.detect_server_key (.obj e) (.obj n) = some (some k))
    (hes : (lookupKey k e).getD (.obj []) = .obj esl)
    (hns : (lookupKey k n).getD (.obj []) = .obj nsl) :
    Files.merge_parsed_configs (.obj e) (.obj n) =
      some (.obj (setKey k (.obj (dictUnion nsl esl)) (dictUnion n e))) ∧
    (∀ name, lookupKey name (dictUnion nsl esl) =
      firstSome (lookupKey name esl) (lookupKey name nsl)) ∧
    (∀ (e0 ms0 : JObj) (ncfg : JVal) (nsl0 : JObj),
      lookupKey "mcpServers" e0 = some (.obj ms0) →
      dictGet ncfg "mcpServers" (.obj []) = some (.obj nsl0) →
      ∃ e' ms', ConfigFiles.merge_mcp_config (some (.json (.obj e0))) ncfg =
          some (.json (.obj e')) ∧
        lookupKey "mcpServers" e' = some (.obj ms') ∧
        ∀ name, lookupKey name ms' =
          firstSome (lookupKey name ms0) (lookupKey name nsl0)) := by
  refine ⟨?_, fun name => ?_, fun e0 ms0 ncfg nsl0 h0 hget => ?_⟩
  · simp only [Files.merge_parsed_configs, hdet, dictGet, hes, hns, starUnion, pySetItem]
  · rw [lookupKey_dictUnion]
    cases hN : lookupKey name nsl with
    | none => cases hE : lookupKey name esl <;> simp
    | some v => cases hE : lookupKey name esl <;> simp
  · obtain ⟨e', ms', h1, h2, h3⟩ := addServers_spec nsl0 e0 ms0 h0
    refine ⟨e', ms', ?_, h2, h3⟩
    have hens : ConfigFiles.ensureServersKey (.obj e0) = some (.obj e0) := by
      simp [ConfigFiles.ensureServersKey, pyContains, h0]
    simp only [ConfigFiles.merge_mcp_config, hens, hget, h1]

/-- Witness for C1 at the spec example: existing mcpServers a maps x to 1,
new maps a to x 2 and adds b; the merged servers keep a at x 1 and add b. -/
theorem C1_server_merge_precedence_witness :
    Files.merge_parsed_configs
        (.obj [("mcpServers", .obj [("a", .obj [("x", .num 1)])])])
        (.obj [("mcpServers", .obj [("a", .obj [("x", .num 2)]), ("b", .obj [("y", .num 1)])])]) =
      some (.obj [("mcpServers",
        .obj [("a", .obj [("x", .num 1)]), ("b", .obj [("y", .num 1)])])]) := by
  have h := C1_server_merge_precedence
    [("mcpServers", .obj [("a", .obj [("x", .num 1)])])]
    [("mcpServers", .obj [("a", .obj [("x", .num 2)]), ("b", .obj [("y", .num 1)])])]
    "mcpServers"
    [("a", .obj [("x", .num 1)])]
    [("a", .obj [("x", .num 2)]), ("b", .obj [("y", .num 1)])]
    rfl rfl rfl
  exact h.1

/-- Claim C10 (amended): whenever the existing destination is absent,
unparsable, or a JSON object whose mcpServers entry (when present) is an
object, every call to the step merge rewrites the destination with a JSON
object carrying an mcpServers key that maps to an object, and no
exception escapes. -/
theorem C10_step_merge_invariant (dest : Option Content) (ncfg : JVal) (nsl : JObj)
    (hex : ExistingOK dest)
    (hns : dictGet ncfg "mcpServers" (.obj []) = some (.obj nsl)) :
    ∃ e' ms', ConfigFiles.merge_mcp_config_call dest ncfg =
        (some (.json (.obj e')), false) ∧
      lookupKey "mcpServers" e' = some (.obj ms') := by
  have hens0 : ConfigFiles.ensureServersKey (.obj ([] : JObj)) =
      some (.obj [("mcpServers", .obj [])]) := rfl
  rcases hex with h | ⟨s, h⟩ | ⟨e, h, hml⟩
  · subst h
    obtain ⟨e', ms', h1, h2, _⟩ :=
      addServers_spec nsl [("mcpServers", .obj [])] [] (by simp [lookupKey])
    refine ⟨e', ms', ?_, h2⟩
    simp only [ConfigFiles.merge_mcp_config_call, ConfigFiles.merge_mcp_config,
      hens0, hns, h1]
  · subst h
    obtain ⟨e', ms', h1, h2, _⟩ :=
      addServers_spec nsl [("mcpServers", .obj [])] [] (by simp [lookupKey])
    refine ⟨e', ms', ?_, h2⟩
    simp only [ConfigFiles.merge_mcp_config_call, ConfigFiles.merge_mcp_config,
      hens0, hns, h1]
  · rcases hml with hnone | ⟨ms, hsome⟩
    · subst h
      have hens : ConfigFiles.ensureServersKey (.obj e) =
          some (.obj (setKey "mcpServers" (.obj []) e)) := by
        simp [ConfigFiles.ensureServersKey, pyContains, hnone, pySetItem]
      have hset : lookupKey "mcpServers" (setKey "mcpServers" (.obj []) e) =
          some (.obj []) := lookupKey_setKey_self _ _ _
      obtain ⟨e', ms', h1, h2, _⟩ := addServers_spec nsl _ _ hset
      refine ⟨e', ms', ?_, h2⟩
      simp only [ConfigFiles.merge_mcp_config_call, ConfigFiles.merge_mcp_config,
        hens, hns, h1]
    · subst h
      have hens : ConfigFiles.ensureServersKey (.obj e) = some (.obj e) := by
        simp [ConfigFiles.ensureServersKey, pyContains, hsome]
      obtain ⟨e', ms', h1, h2, _⟩ := addServers_spec nsl _ _ hsome
      refine ⟨e', ms', ?_, h2⟩
      simp only [ConfigFiles.merge_mcp_config_call, ConfigFiles.merge_mcp_config,
        hens, hns, h1]

/-- Witness for C10: a fresh destination and a new config without servers
still produce an object with an object-valued mcpServers key. -/
theorem C10_step_merge_invariant_witness :
    ∃ e' ms', ConfigFiles.merge_mcp_config_call none (.obj []) =
        (some (.json (.obj e')), false) ∧
      lookupKey "mcpServers" e' = some (.obj ms') :=
  C10_step_merge_invariant none (.obj []) [] (Or.inl rfl) rfl

/-- Claim C2 (amended): in the library merge, an absent destination is
filled with the fetched bytes verbatim; and on any parse error - existing
or new content unparsable - the existing destination is left untouched, a
warning is reported, and no exception escapes (the whole body runs inside
a try/except returning False). -/
theorem C2_merge_fail_soft (newC : Content) (dest : Option Content) :
    (dest = none → Files.merge_mcp_config newC dest =
      ⟨some newC, true, false⟩) ∧
    (∀ d, dest = some d →
      ((∃ s, d = .text s) ∨ (∃ s, newC = .text s)) →
      Files.merge_mcp_config newC dest = ⟨some d, false, true⟩) := by
  constructor
  · intro h
    subst h
    rfl
  · intro d hd hcase
    subst hd
    rcases hcase with ⟨s, hs⟩ | ⟨s, hs⟩
    · subst hs
      rfl
    · subst hs
      cases d <;> rfl

/-- Witness for C2: an absent destination takes the downloaded bytes, and
an unparsable destination survives a merge attempt untouched. -/
theorem C2_merge_fail_soft_witness :
    Files.merge_mcp_config (.json (.obj [])) none =
      ⟨some (.json (.obj [])), true, false⟩ ∧
    Files.merge_mcp_config (.json (.obj [])) (some (.text "bad")) =
      ⟨some (.text "bad"), false, true⟩ :=
  ⟨(C2_merge_fail_soft (.json (.obj [])) none).1 rfl,
   (C2_merge_fail_soft (.json (.obj [])) (some (.text "bad"))).2
     (.text "bad") rfl (Or.inl ⟨"bad", rfl⟩)⟩

/-- Counterexample for C2 as stated: when the existing destination exists
but does not parse as JSON, the resulting content is the old bytes, not
the newly fetched content - the file is preserved, not replaced. -/
theorem C2_counterexample :
    (Files.merge_mcp_config (.json (.obj [])) (some (.text "not json"))).dest =
      some (.text "not json") ∧
    Content.text "not json" ≠ Content.json (.obj []) :=
  ⟨rfl, fun h => nomatch h⟩

/-- Claim C6: whenever the fetch fails - absent source file in local
mode, or a network error or non-200 status in remote mode - download_file
returns False and the destination file is neither created nor truncated
(its prior state is returned unchanged); the body catches all exceptions,
so none escapes. -/
theorem C6_download_failure (cfg : Downloads.DownloadConfig)
    (env : Downloads.FetchEnv) (dest : Option String)
    (h : Downloads.fetchFails cfg env = true) :
    Downloads.download_file cfg env dest = (false, dest) := by
  unfold Downloads.download_file
  unfold Downloads.fetchFails at h
  by_cases hl : (cfg.local_mode && cfg.has_local_repo_dir) = true
  · rw [if_pos hl] at h ⊢
    cases hs : env.localSource with
    | none => rfl
    | some s =>
      rw [hs] at h
      simp at h
  · rw [if_neg hl] at h ⊢
    cases hr : env.remote with
    | err => rfl
    | resp status body =>
      rw [hr] at h
      have hne : ¬(status == 200) = true := by
        simp only [bne] at h
        cases hsb : status == 200 with
        | true => rw [hsb] at h; simp at h
        | false => simp [hsb]
      simp only [if_neg hne]

/-- Witness for C6: a remote 404 leaves prior destination bytes intact. -/
theorem C6_download_failure_witness :
    Downloads.download_file ⟨false, false⟩ ⟨none, false, .resp 404 "nope"⟩
      (some "old bytes") = (false, some "old bytes") :=
  C6_download_failure ⟨false, false⟩ ⟨none, false, .resp 404 "nope"⟩
    (some "old bytes") rfl

/-- Claim C8 (amended): the legacy install script regenerates
settings.local.json unconditionally only on a fresh install; with an
existing destination it regenerates only on an explicit y/yes answer in
interactive mode, or when OVERWRITE_SETTINGS is Y/YES in non-interactive
mode, and otherwise keeps the existing file; the step-based installer
instead regenerates unconditionally whenever the template exists and
parses. -/
theorem C8_settings_regeneration (t s ans dir : String) (ow : Option String)
    (ex : Option String) (ni : Bool) :
    (InstallScript.generate_settings none ex ni ans ow dir = ex) ∧
    (InstallScript.generate_settings (some t) none ni ans ow dir =
      some (InstallScript.expand t dir)) ∧
    (InstallScript.isYesAnswer ans = false →
      InstallScript.generate_settings (some t) (some s) false ans ow dir = some s) ∧
    (InstallScript.isYesAnswer ans = true →
      InstallScript.generate_settings (some t) (some s) false ans ow dir =
        some (InstallScript.expand t dir)) ∧
    (InstallScript.isYesEnv (ow.getD "N") = false →
      InstallScript.generate_settings (some t) (some s) true ans ow dir = some s) ∧
    (InstallScript.isYesEnv (ow.getD "N") = true →
      InstallScript.generate_settings (some t) (some s) true ans ow dir =
        some (InstallScript.expand t dir)) ∧
    (∀ (v : JVal) (ex2 : Option Content),
      ConfigFiles.generate_settings_step true (some v) true ex2 = some (.json v)) := by
  refine ⟨rfl, rfl, fun h => ?_, fun h => ?_, fun h => ?_, fun h => ?_,
    fun v ex2 => rfl⟩ <;>
    simp [InstallScript.generate_settings, h]

/-- Witness for C8: with an existing file, a blank interactive answer
keeps it, and answering y regenerates it. -/
theorem C8_settings_regeneration_witness :
    InstallScript.generate_settings (some "tpl") (some "old") false "" none "/p" =
      some "old" ∧
    InstallScript.generate_settings (some "tpl") (some "old") false "y" none "/p" =
      some (InstallScript.expand "tpl" "/p") ∧
    InstallScript.generate_settings (some "tpl") (some "old") true "" (some "YES") "/p" =
      some (InstallScript.expand "tpl" "/p") :=
  ⟨(C8_settings_regeneration "tpl" "old" "" "/p" none none false).2.2.1 rfl,
   (C8_settings_regeneration "tpl" "old" "y" "/p" none none false).2.2.2.1 rfl,
   (C8_settings_regeneration "tpl" "old" "" "/p" (some "YES") none true).2.2.2.2.2.1 rfl⟩

/-- Counterexample for C8 as stated: the step-based installer regenerates
settings.local.json although the destination exists, no confirmation was
given and no environment variable consulted - ConfigFilesStep.run takes
neither input. -/
theorem C8_counterexample :
    ConfigFiles.generate_settings_step true (some (.obj [])) true
        (some (.json (.obj [("userSetting", .num 1)]))) =
      some (.json (.obj [])) ∧
    (Content.json (.obj []) : Content) ≠ Content.json (.obj [("userSetting", .num 1)]) := by
  refine ⟨rfl, fun h => ?_⟩
  simp at h

/-- Claim C9: with skip_env or non_interactive set, EnvironmentStep.run
returns before any file operation, so the .env file state is unchanged. -/
theorem C9_environment_skip (skip ni : Bool) (env : String → Option String)
    (ui : Option Env.UIAnswers) (file : Option (List Char))
    (h : skip = true ∨ ni = true) :
    Env.EnvironmentStep_run skip ni env ui file = file := by
  unfold Env.EnvironmentStep_run
  rcases h with h | h <;> subst h <;> simp

/-- Witness for C9: a non-interactive run leaves an absent .env absent. -/
theorem C9_environment_skip_witness :
    Env.EnvironmentStep_run false true (fun _ => none) none none = none :=
  C9_environment_skip false true (fun _ => none) none none (Or.inr rfl)

theorem splitOnNl_cons_nl (l : List Char) :
    Env.splitOnNl ('\n' :: l) = [] :: Env.splitOnNl l := by
  simp [Env.splitOnNl]

theorem splitOnNl_cons_of_ne (x : Char) (l : List Char) (hx : ¬(x = '\n')) :
    Env.splitOnNl (x :: l) =
      (x :: (Env.splitOnNl l).headD []) :: (Env.splitOnNl l).tail := by
  simp [Env.splitOnNl, hx]

theorem splitOnNl_ne_nil (l : List Char) : Env.splitOnNl l ≠ [] := by
  cases l with
  | nil => simp [Env.splitOnNl]
  | cons c rest =>
    by_cases h : c = '\n'
    · subst h
      rw [splitOnNl_cons_nl]
      simp
    · rw [splitOnNl_cons_of_ne c rest h]
      simp

theorem splitOnNl_length_two (l : List Char) (h : l.getLast? = some '\n') :
    2 ≤ (Env.splitOnNl l).length := by
  induction l with
  | nil => simp at h
  | cons c rest ih =>
    cases rest with
    | nil =>
      rw [List.getLast?_singleton] at h
      have hc : c = '\n' := by injection h
      subst hc
      rw [splitOnNl_cons_nl]
      simp [Env.splitOnNl]
    | cons d rest2 =>
      rw [List.getLast?_cons_cons] at h
      have ihlen := ih h
      by_cases hc : c = '\n'
      · subst hc
        rw [splitOnNl_cons_nl]
        simp only [List.length_cons]
        omega
      · rw [splitOnNl_cons_of_ne c _ hc]
        simp only [List.length_cons, List.length_tail]
        omega

theorem splitOnNl_append (c t : List Char)
    (h : c = [] ∨ c.getLast? = some '\n') :
    Env.splitOnNl (c ++ t) =
      (Env.splitOnNl c).dropLast ++ Env.splitOnNl t := by
  induction c with
  | nil => simp [Env.splitOnNl]
  | cons x rest ih =>
    rcases h with h | h
    · exact absurd h (by simp)
    cases rest with
    | nil =>
      rw [List.getLast?_singleton] at h
      have hx : x = '\n' := by injection h
      subst hx
      rw [List.cons_append, List.nil_append, splitOnNl_cons_nl]
      have h1 : Env.splitOnNl ['\n'] = [[], []] := rfl
      rw [h1]
      rfl
    | cons d rest2 =>
      rw [List.getLast?_cons_cons] at h
      have ihe := ih (Or.inr h)
      have hlen := splitOnNl_length_two (d :: rest2) h
      obtain ⟨a, r1, hr⟩ : ∃ a r1, Env.splitOnNl (d :: rest2) = a :: r1 := by
        cases hq : Env.splitOnNl (d :: rest2) with
        | nil => exact absurd hq (splitOnNl_ne_nil _)
        | cons a r1 => exact ⟨a, r1, rfl⟩
      obtain ⟨b, r2, hr1⟩ : ∃ b r2, r1 = b :: r2 := by
        cases hq : r1 with
        | nil =>
          rw [hq] at hr
          rw [hr] at hlen
          simp at hlen
        | cons b r2 => exact ⟨b, r2, rfl⟩
      subst hr1
      by_cases hx : x = '\n'
      · subst hx
        rw [List.cons_append, splitOnNl_cons_nl, ihe, hr, splitOnNl_cons_nl, hr]
        simp [List.dropLast]
      · rw [List.cons_append, splitOnNl_cons_of_ne x _ hx, ihe, hr,
          splitOnNl_cons_of_ne x _ hx, hr]
        simp [List.dropLast]

theorem splitOnNl_no_newline (l : List Char) (h : ('\n' : Char) ∉ l) :
    Env.splitOnNl (l ++ ['\n']) = [l, []] := by
  induction l with
  | nil => rfl
  | cons x rest ih =>
    have hx : ¬(x = '\n') := fun hh => h (hh ▸ List.mem_cons_self x rest)
    have hr : ('\n' : Char) ∉ rest := fun hh => h (List.mem_cons_of_mem _ hh)
    have ihr := ih hr
    rw [List.cons_append, splitOnNl_cons_of_ne x _ hx, ihr]
    rfl

theorem keyLine_of_kv (key value : String)
    (hkv : Env.trimBoth (key.data ++ '=' :: value.data) = key.data ++ '=' :: value.data) :
    Env.keyLine key (key.data ++ '=' :: value.data) = true := by
  unfold Env.keyLine
  rw [hkv]
  have : key.data ++ '=' :: value.data = (key.data ++ ['=']) ++ value.data := by
    simp
  rw [this, List.isPrefixOf_iff_prefix]
  exact List.prefix_append _ _

theorem keyLine_nil_false (key : String) : Env.keyLine key [] = false := by
  unfold Env.keyLine
  have htrim : Env.trimBoth [] = [] := rfl
  rw [htrim]
  cases hq : (key.data ++ ['=']).isPrefixOf ([] : List Char) with
  | false => rfl
  | true =>
    rw [List.isPrefixOf_iff_prefix] at hq
    have := List.eq_nil_of_prefix_nil hq
    simp at this

/-- After appending `key=value` and a newline to a terminated content,
the key exists. -/
theorem key_exists_after_append (key value : String) (c : List Char)
    (hterm : c = [] ∨ c.getLast? = some '\n')
    (hkv : Env.trimBoth (key.data ++ '=' :: value.data) = key.data ++ '=' :: value.data)
    (hnl : ('\n' : Char) ∉ key.data ++ '=' :: value.data) :
    Env.key_exists_in_file key (some (c ++ key.data ++ '=' :: value.data ++ ['\n'])) = true := by
  have hstep : Env.key_exists_in_file key
      (some (c ++ key.data ++ '=' :: value.data ++ ['\n'])) =
      (Env.splitOnNl (c ++ key.data ++ '=' :: value.data ++ ['\n'])).any
        (Env.keyLine key) := rfl
  rw [hstep]
  have heq : c ++ key.data ++ '=' :: value.data ++ ['\n'] =
      c ++ ((key.data ++ '=' :: value.data) ++ ['\n']) := by simp
  rw [heq, splitOnNl_append c _ hterm, splitOnNl_no_newline _ hnl]
  rw [List.any_eq_true]
  refine ⟨key.data ++ '=' :: value.data, ?_, keyLine_of_kv key value hkv⟩
  exact List.mem_append_right _ (List.mem_cons_self _ _)

/-- Claim C4 (amended): the key-set check is true exactly when the
process environment variable is present and non-empty, or the file has a
line that, after stripping, starts with `key=` - whether or not the value
after the equals sign is empty.  A non-empty environment variable hence
makes the check true regardless of the file. -/
theorem C4_key_check_iff (key : String) (env : String → Option String)
    (file : Option (List Char)) :
    Env.key_is_set key env file = true ↔
      ((∃ v, env key = some v ∧ v ≠ "") ∨
       (∃ c, file = some c ∧ ∃ l ∈ Env.splitOnNl c, Env.keyLine key l = true)) := by
  unfold Env.key_is_set Env.key_exists_in_file
  rcases file with _ | c
  · cases henv : env key with
    | none => simp [henv]
    | some v => by_cases hv : v = "" <;> simp [henv, hv]
  · cases henv : env key with
    | none => simp [henv, List.any_eq_true]
    | some v => by_cases hv : v = "" <;> simp [henv, hv, List.any_eq_true]

/-- Counterexample for C4 as stated: with no environment variable set and
a file whose only line for X carries an empty value, the code reports the
key as set, while the spec wording (non-empty value after trimming)
reports it as not set. -/
theorem C4_counterexample :
    Env.key_is_set "X" (fun _ => none) (some ("X=\n".data)) = true ∧
    Env.spec_key_check "X" (fun _ => none) (some ("X=\n".data)) = false :=
  ⟨rfl, rfl⟩

/-- Claim C5 (amended): for well-formed keys and values (the strip-stable,
newline-free lines the installer writes) and a file state that is absent,
empty, or newline-terminated: upsert is idempotent - the second identical
call changes nothing; a call on a file already holding a line for the key,
even with an empty value, is a no-op; and a call on a file with no line
for the key appends `key=value`, creating the file when absent, leaving
exactly one line for the key. -/
theorem C5_upsert_idempotent (key value : String) (file : Option (List Char))
    (hterm : terminatedFile file)
    (hkv : Env.trimBoth (key.data ++ '=' :: value.data) = key.data ++ '=' :: value.data)
    (hnl : ('\n' : Char) ∉ key.data ++ '=' :: value.data) :
    (Env.add_env_key key value (Env.add_env_key key value file) =
      Env.add_env_key key value file) ∧
    (Env.key_exists_in_file key file = true → Env.add_env_key key value file = file) ∧
    (Env.key_exists_in_file key file = false →
      Env.add_env_key key value file =
        some ((file.getD []) ++ key.data ++ '=' :: value.data ++ ['\n']) ∧
      (Env.splitOnNl ((file.getD []) ++ key.data ++ '=' :: value.data ++ ['\n'])).countP
        (Env.keyLine key) = 1) := by
  have hgetD : (file.getD []) = [] ∨ (file.getD []).getLast? = some '\n' := by
    rcases file with _ | c
    · exact Or.inl rfl
    · exact hterm
  have hcount : Env.key_exists_in_file key file = false →
      (Env.splitOnNl ((file.getD []) ++ key.data ++ '=' :: value.data ++ ['\n'])).countP
        (Env.keyLine key) = 1 := by
    intro hex
    have heq : (file.getD []) ++ key.data ++ '=' :: value.data ++ ['\n'] =
        (file.getD []) ++ ((key.data ++ '=' :: value.data) ++ ['\n']) := by simp
    rw [heq, splitOnNl_append _ _ hgetD, splitOnNl_no_newline _ hnl,
      List.countP_append]
    have hzero : (Env.splitOnNl (file.getD [])).dropLast.countP (Env.keyLine key) = 0 := by
      rcases file with _ | c
      · rfl
      · rw [List.countP_eq_zero]
        intro l hl
        have hmem : l ∈ Env.splitOnNl c := (List.dropLast_sublist _).mem hl
        unfold Env.key_exists_in_file at hex
        rw [List.any_eq_false] at hex
        exact fun hp => hex l hmem hp
    rw [hzero, List.countP_cons, List.countP_cons, List.countP_nil,
      keyLine_of_kv key value hkv, keyLine_nil_false key]
    rfl
  have hnoop : Env.key_exists_in_file key file = true →
      Env.add_env_key key value file = file := by
    intro hex
    simp [Env.add_env_key, hex]
  have happend : Env.key_exists_in_file key file = false →
      Env.add_env_key key value file =
        some ((file.getD []) ++ key.data ++ '=' :: value.data ++ ['\n']) := by
    intro hex
    simp [Env.add_env_key, hex]
  refine ⟨?_, hnoop, fun hex => ⟨happend hex, hcount hex⟩⟩
  cases hex : Env.key_exists_in_file key file with
  | true => rw [hnoop hex, hnoop hex]
  | false =>
    rw [happend hex]
    have hnew : Env.key_exists_in_file key
        (some ((file.getD []) ++ key.data ++ '=' :: value.data ++ ['\n'])) = true :=
      key_exists_after_append key value (file.getD []) hgetD hkv hnl
    unfold Env.add_env_key
    rw [hnew]
    rfl

/-- Witness for C5: upserting X=v into a newline-terminated file twice
appends once and then no-ops, leaving exactly one line for X. -/
theorem C5_upsert_idempotent_witness :
    (Env.add_env_key "X" "v" (Env.add_env_key "X" "v" (some ("A=1\n".data))) =
      Env.add_env_key "X" "v" (some ("A=1\n".data))) ∧
    (Env.add_env_key "X" "v" (some ("A=1\n".data)) =
      some (("A=1\n".data) ++ "X".data ++ '=' :: "v".data ++ ['\n'])) ∧
    (Env.splitOnNl (("A=1\n".data) ++ "X".data ++ '=' :: "v".data ++ ['\n'])).countP
      (Env.keyLine "X") = 1 := by
  have h := C5_upsert_idempotent "X" "v" (some ("A=1\n".data))
    (Or.inr (by decide)) (by decide) (by decide)
  exact ⟨h.1, (h.2.2 (by decide)).1, (h.2.2 (by decide)).2⟩

/-- Counterexample for C5 as stated: the file holds X with an empty value,
and upsert no-ops instead of writing the new value. -/
theorem C5_counterexample :
    Env.add_env_key "X" "v" (some ("X=\n".data)) = some ("X=\n".data) ∧
    Env.key_exists_in_file "X" (some ("X=\n".data)) = true :=
  ⟨rfl, rfl⟩

theorem lookupKey_mem (k : String) (l : JObj) (v : JVal)
    (h : lookupKey k l = some v) : ∃ p ∈ l, p.2 = v := by
  induction l with
  | nil => simp [lookupKey] at h
  | cons p rest ih =>
    obtain ⟨k', v'⟩ := p
    by_cases hk : k' = k
    · rw [lookupKey, if_pos hk] at h
      exact ⟨(k', v'), List.mem_cons_self _ _, by injection h⟩
    · rw [lookupKey, if_neg hk] at h
      obtain ⟨q, hq, hqv⟩ := ih h
      exact ⟨q, List.mem_cons_of_mem _ hq, hqv⟩

theorem mergeYamlCommand_spec (name : String) (cfg : JVal) (ecmds : JObj)
    (hc : CmdOK cfg)
    (he : ∀ p ∈ ecmds, CmdOK p.2) :
    Files.mergeYamlCommand name cfg (.obj ecmds) =
      some (match lookupKey name ecmds with
            | none => (name, cfg)
            | some ecmd => (name, withCustom (existingCustom ecmd) cfg)) := by
  cases hl : lookupKey name ecmds with
  | none =>
    simp only [Files.mergeYamlCommand, pyContains, hl, Option.isSome_none]
  | some ecmd =>
    have hecmd : CmdOK ecmd := by
      obtain ⟨p, hp, hpv⟩ := lookupKey_mem name ecmds ecmd hl
      exact hpv ▸ he p hp
    obtain ⟨eo, heo, hro⟩ := hecmd
    obtain ⟨co, hco, hrn⟩ := hc
    subst heo
    subst hco
    rcases hro with hro | ⟨ro, hro⟩
    · rcases hrn with hrn | ⟨rn, hrn⟩
      · simp [Files.mergeYamlCommand, pyContains, hl, pyGetItem, dictGet, hro,
          hrn, pySetItem, lookupKey_setKey_self, setKey_setKey, setKey,
          existingCustom, withCustom]
      · simp [Files.mergeYamlCommand, pyContains, hl, pyGetItem, dictGet, hro,
          hrn, pySetItem, lookupKey_setKey_self, setKey_setKey, setKey,
          existingCustom, withCustom]
    · rcases hrn with hrn | ⟨rn, hrn⟩
      · simp [Files.mergeYamlCommand, pyContains, hl, pyGetItem, dictGet, hro,
          hrn, pySetItem, lookupKey_setKey_self, setKey_setKey, setKey,
          existingCustom, withCustom]
      · simp [Files.mergeYamlCommand, pyContains, hl, pyGetItem, dictGet, hro,
          hrn, pySetItem, lookupKey_setKey_self, setKey_setKey, setKey,
          existingCustom, withCustom]

theorem mergeCommands_spec (ecmds ncmds : JObj)
    (hn : ∀ p ∈ ncmds, CmdOK p.2)
    (he : ∀ p ∈ ecmds, CmdOK p.2) :
    Files.mergeCommands (.obj ecmds) ncmds = some (expMergedCommands ecmds ncmds) := by
  induction ncmds with
  | nil => rfl
  | cons p rest ih =>
    obtain ⟨name, cfg⟩ := p
    have hcfg : CmdOK cfg := hn _ (List.mem_cons_self _ _)
    have ihr := ih (fun q hq => hn q (List.mem_cons_of_mem _ hq))
    rw [Files.mergeCommands, mergeYamlCommand_spec name cfg ecmds hcfg he, ihr]
    unfold expMergedCommands
    rw [List.map_cons]

/-- Claim C3: for YAML configs that both carry a commands mapping of
well-shaped command definitions, the merge result is the new structure
with, for every command also present in the existing config, rules.custom
replaced by the existing custom sequence (empty default, rules created
when absent); commands only in the new config and all their standard
rules come from the new config untouched. -/
theorem C3_yaml_custom_preserved (n e ncmds ecmds : JObj)
    (hn : lookupKey "commands" n = some (.obj ncmds))
    (he : lookupKey "commands" e = some (.obj ecmds))
    (hsn : ∀ p ∈ ncmds, CmdOK p.2)
    (hse : ∀ p ∈ ecmds, CmdOK p.2) :
    Files.merge_yaml_parsed (.obj n) (.obj e) =
      some (.obj (setKey "commands" (.obj (expMergedCommands ecmds ncmds)) n)) := by
  simp only [Files.merge_yaml_parsed, pyContains, hn, he, Option.isSome_some,
    pyGetItem, mergeCommands_spec ecmds ncmds hsn hse, pySetItem]

/-- Witness for C3 at the spec example: existing
commands.plan.rules.custom = [foo], new commands.plan.rules.standard =
[bar]; the merge yields standard [bar] with custom [foo] carried over. -/
theorem C3_yaml_custom_preserved_witness :
    Files.merge_yaml_parsed
        (.obj [("commands", .obj [("plan", .obj [("rules",
          .obj [("standard", .arr [.str "bar"])])])])])
        (.obj [("commands", .obj [("plan", .obj [("rules",
          .obj [("custom", .arr [.str "foo"])])])])]) =
      some (.obj [("commands", .obj [("plan", .obj [("rules",
        .obj [("standard", .arr [.str "bar"]), ("custom", .arr [.str "foo"])])])])]) := by
  have h := C3_yaml_custom_preserved
    [("commands", .obj [("plan", .obj [("rules", .obj [("standard", .arr [.str "bar"])])])])]
    [("commands", .obj [("plan", .obj [("rules", .obj [("custom", .arr [.str "foo"])])])])]
    [("plan", .obj [("rules", .obj [("standard", .arr [.str "bar"])])])]
    [("plan", .obj [("rules", .obj [("custom", .arr [.str "foo"])])])]
    rfl rfl
    (by
      intro p hp
      rw [List.mem_singleton] at hp
      subst hp
      exact ⟨_, rfl, Or.inr ⟨_, rfl⟩⟩)
    (by
      intro p hp
      rw [List.mem_singleton] at hp
      subst hp
      exact ⟨_, rfl, Or.inr ⟨_, rfl⟩⟩)
  rw [h]
  rfl

theorem keepHook_spec (h : JVal) (hh : HookOK h) :
    ConfigFiles.keepHook h = some (keepHookB h) := by
  obtain ⟨ho, hho, hcmd⟩ := hh
  subst hho
  rcases hcmd with hcmd | ⟨s, hcmd⟩
  · simp only [ConfigFiles.keepHook, ConfigFiles.pyHookCommand, dictGet, hcmd,
      Option.getD_none, pyContains, keepHookB, strCommand, hcmd]
  · simp only [ConfigFiles.keepHook, ConfigFiles.pyHookCommand, dictGet, hcmd,
      Option.getD_some, pyContains, keepHookB, strCommand, hcmd]

theorem filterHooks_spec (hl : List JVal) (hh : ∀ h ∈ hl, HookOK h) :
    ConfigFiles.filterHooks hl = some (hl.filter keepHookB) := by
  induction hl with
  | nil => rfl
  | cons h rest ih =>
    have h1 := keepHook_spec h (hh h (List.mem_cons_self _ _))
    have ihr := ih (fun q hq => hh q (List.mem_cons_of_mem _ hq))
    rw [ConfigFiles.filterHooks, h1, ihr, List.filter_cons]

theorem filterGroup_spec (g : JVal) (hg : GroupOK g) :
    ConfigFiles.filterGroup g = some (expGroup g) := by
  obtain ⟨go, hgo, hhl⟩ := hg
  subst hgo
  rcases hhl with hhl | ⟨hl, hhl, hshape⟩
  · simp only [ConfigFiles.filterGroup, pyContains, hhl, Option.isSome_none,
      expGroup]
  · simp only [ConfigFiles.filterGroup, pyContains, hhl, Option.isSome_some,
      pyGetItem, filterHooks_spec hl hshape, pySetItem, expGroup]

theorem filterGroups_spec (groups : List JVal) (hg : ∀ g ∈ groups, GroupOK g) :
    ConfigFiles.filterGroups groups = some (groups.map expGroup) := by
  induction groups with
  | nil => rfl
  | cons g rest ih =>
    have h1 := filterGroup_spec g (hg g (List.mem_cons_self _ _))
    have ihr := ih (fun q hq => hg q (List.mem_cons_of_mem _ hq))
    rw [ConfigFiles.filterGroups, h1, ihr, List.map_cons]

/-- Claim C7 (amended): when the Python toolchain is not selected, the
settings post-processing removes exactly those hooks.PostToolUse[].hooks[]
entries whose command contains the substring file_checker_python.py, and
exactly those permissions.allow entries that are equal to a member of the
Python filter list - equality, not substring matching; every other hook
entry, permission entry, and settings key is left unchanged. -/
theorem C7_python_settings_filter (s hv pv : JObj) (groups allows : List JVal)
    (hhooks : lookupKey "hooks" s = some (.obj hv))
    (hptu : lookupKey "PostToolUse" hv = some (.arr groups))
    (hgs : ∀ g ∈ groups, GroupOK g)
    (hperm : lookupKey "permissions" s = some (.obj pv))
    (hallow : lookupKey "allow" pv = some (.arr allows)) :
    ConfigFiles.remove_python_settings (.obj s) =
      some (.obj (setKey "permissions"
        (.obj (setKey "allow" (.arr (allows.filter ConfigFiles.keepPerm)) pv))
        (setKey "hooks"
          (.obj (setKey "PostToolUse" (.arr (groups.map expGroup)) hv)) s))) := by
  have hperm' : lookupKey "permissions"
      (setKey "hooks" (.obj (setKey "PostToolUse" (.arr (groups.map expGroup)) hv)) s) =
      some (.obj pv) := by
    rw [lookupKey_setKey_ne _ _ _ _ (by decide)]
    exact hperm
  have hH : ConfigFiles.removeHooks (.obj s) =
      some (.obj (setKey "hooks"
        (.obj (setKey "PostToolUse" (.arr (groups.map expGroup)) hv)) s)) := by
    simp only [ConfigFiles.removeHooks, pyContains, hhooks, Option.isSome_some,
      pyGetItem, hptu, filterGroups_spec groups hgs, pySetItem]
  have hP : ConfigFiles.removePerms
      (.obj (setKey "hooks"
        (.obj (setKey "PostToolUse" (.arr (groups.map expGroup)) hv)) s)) =
      some (.obj (setKey "permissions"
        (.obj (setKey "allow" (.arr (allows.filter ConfigFiles.keepPerm)) pv))
        (setKey "hooks"
          (.obj (setKey "PostToolUse" (.arr (groups.map expGroup)) hv)) s))) := by
    simp only [ConfigFiles.removePerms, pyContains, hperm', Option.isSome_some,
      pyGetItem, hallow, pySetItem]
  rw [ConfigFiles.remove_python_settings, hH]
  exact hP

/-- Witness for C7: a Python hook command is dropped by substring match, a
listed permission is dropped by equality, and the other entries stay. -/
theorem C7_python_settings_filter_witness :
    ConfigFiles.remove_python_settings (.obj
      [("hooks", .obj [("PostToolUse", .arr [.obj [("hooks", .arr
          [.obj [("command", .str "uv run /x/file_checker_python.py")],
           .obj [("command", .str "other.sh")]])]])]),
       ("permissions", .obj [("allow", .arr [.str "Bash(mypy:*)", .str "Bash(git:*)"])])]) =
      some (.obj
      [("hooks", .obj [("PostToolUse", .arr [.obj [("hooks", .arr
          [.obj [("command", .str "other.sh")]])]])]),
       ("permissions", .obj [("allow", .arr [.str "Bash(git:*)"])])]) := by
  have h := C7_python_settings_filter
    [("hooks", .obj [("PostToolUse", .arr [.obj [("hooks", .arr
        [.obj [("command", .str "uv run /x/file_checker_python.py")],
         .obj [("command", .str "other.sh")]])]])]),
     ("permissions", .obj [("allow", .arr [.str "Bash(mypy:*)", .str "Bash(git:*)"])])]
    [("PostToolUse", .arr [.obj [("hooks", .arr
        [.obj [("command", .str "uv run /x/file_checker_python.py")],
         .obj [("command", .str "other.sh")]])]])]
    [("allow", .arr [.str "Bash(mypy:*)", .str "Bash(git:*)"])]
    [.obj [("hooks", .arr
        [.obj [("command", .str "uv run /x/file_checker_python.py")],
         .obj [("command", .str "other.sh")]])]]
    [.str "Bash(mypy:*)", .str "Bash(git:*)"]
    rfl rfl
    (by
      intro g hg
      rw [List.mem_singleton] at hg
      subst hg
      refine ⟨_, rfl, Or.inr ⟨_, rfl, ?_⟩⟩
      intro hk hhk
      rw [List.mem_cons] at hhk
      rcases hhk with hhk | hhk
      · subst hhk
        exact ⟨_, rfl, Or.inr ⟨_, rfl⟩⟩
      · rw [List.mem_singleton] at hhk
        subst hhk
        exact ⟨_, rfl, Or.inr ⟨_, rfl⟩⟩)
    rfl rfl
  rw [h]
  rfl

/-- Counterexample for C7 as stated: a permission entry that contains a
filter-list member as a substring, without being equal to one, is kept by
the code, although the claim says substring matches are removed. -/
theorem C7_counterexample :
    ConfigFiles.remove_python_settings
        (.obj [("permissions", .obj [("allow", .arr [.str "xBash(python:*)y"])])]) =
      some (.obj [("permissions", .obj [("allow", .arr [.str "xBash(python:*)y"])])]) ∧
    pyInStr "Bash(python:*)" "xBash(python:*)y" = true ∧
    "Bash(python:*)" ∈ ConfigFiles.PYTHON_PERMISSIONS :=
  ⟨rfl, rfl, by simp [ConfigFiles.PYTHON_PERMISSIONS]⟩

/-- Counterexample for C10 as stated: an existing file whose parsed
mcpServers value is the number 5 is rewritten with that number kept, so
the destination does not map mcpServers to an object. -/
theorem C10_counterexample :
    ConfigFiles.merge_mcp_config_call
        (some (.json (.obj [("mcpServers", .num 5)]))) (.obj []) =
      (some (.json (.obj [("mcpServers", .num 5)])), false) ∧
    lookupKey "mcpServers" [("mcpServers", JVal.num 5)] = some (.num 5) ∧
    ∀ o : JObj, JVal.num 5 ≠ .obj o :=
  ⟨rfl, rfl, fun _ h => nomatch h⟩

end CodePro
